import Mathlib

set_option maxRecDepth 8000

/-!
A shallow embedding of `scripts/db/validate.js` (the iptv database validator) in
Lean 4, together with proofs that settle the frozen claims about it.

Modelling conventions:
* CSV rows are a single record type `Row` holding every field any of the seven
  tables uses; a table's rows simply leave the other fields at their defaults.
  Optional scalar fields (`subdivision`, `replaced_by`) are modelled as strings,
  the empty string playing the role of a JavaScript falsy value.
* The external collaborators (`file.eol`, `file.read`, `csv.fromString`) are an
  environment function `String → FileInput` giving, per path, the detected line
  ending, the raw text, and the external parser's result.
* lodash's `_.keyBy` is modelled as an association list built with JS-object
  key semantics (first-insertion key order, last write wins); only key
  membership is ever consulted downstream, via `hasKey`.
* `JSON`/process concerns are reduced to an `Except`: a call to `handleError`
  (which prints and exits with status 1) is `Except.error`; a completed run is
  `Except.ok` carrying the accumulated error list, and `exitCode` maps the
  final `if (globalErrors.length) return handleError(...)` to 1, else 0.
* JavaScript `String.prototype.toLowerCase` is modelled on the ASCII range
  (`Char.toLower` pointwise), which covers the dataset's identifiers.
* `String.prototype.split` with a plain separator is re-implemented on
  character lists (`splitOnChar`, `splitCRLF`) so that every definition
  reduces by kernel computation.
-/

namespace IptvValidate

/-- A parsed CSV row as the external `csv.fromString` produces it: scalar
string fields plus list-valued fields already split into string sequences. -/
structure Row where
  id : String := ""
  name : String := ""
  channel : String := ""
  code : String := ""
  country : String := ""
  lang : String := ""
  subdivision : String := ""
  replaced_by : String := ""
  categories : List String := []
  languages : List String := []
  broadcast_area : List String := []
  countries : List String := []
deriving DecidableEq, Repr

/-- A validation error record `{line, message}` as pushed by the validators. -/
structure ValidationError where
  line : Nat
  message : String
deriving DecidableEq, Repr

/-- Wrap a string in double quotes, as the template literals in the error
messages do. -/
def quote (s : String) : String := "\"" ++ s ++ "\""

/-- Split a character list on every occurrence of a single separator
character; mirrors JavaScript `s.split(sep)` for a one-character separator
(`''.split(sep)` is `['']`). -/
def splitOnChar (sep : Char) : List Char → List (List Char)
  | [] => [[]]
  | c :: rest =>
    let r := splitOnChar sep rest
    if c == sep then [] :: r else (c :: r.headD []) :: r.tail

/-- Split a character list on every occurrence of the two-character sequence
`\r\n`; mirrors JavaScript `s.split('\r\n')`. -/
def splitCRLF : List Char → List (List Char)
  | [] => [[]]
  | '\r' :: '\n' :: rest => [] :: splitCRLF rest
  | c :: rest =>
    match splitCRLF rest with
    | [] => [[c]]
    | f :: fs => (c :: f) :: fs

/-- JavaScript `s.split(sep)` for a one-character separator, on strings. -/
def jsSplitChar (sep : Char) (s : String) : List String :=
  (splitOnChar sep s.data).map String.mk

/-- JavaScript `s.split('\r\n')`, on strings. -/
def jsSplitCRLF (s : String) : List String :=
  (splitCRLF s.data).map String.mk

/-- JavaScript `s.toLowerCase()`, restricted to the ASCII range. -/
def jsToLower (s : String) : String := String.mk (s.data.map Char.toLower)

/-- JavaScript `s.endsWith(suffix)`. -/
def strEndsWith (s suffix : String) : Bool :=
  s.data.reverse.take suffix.data.length == suffix.data.reverse

/-- The whitespace class of the JavaScript regular-expression escape `\s`. -/
def isJsWhitespace (c : Char) : Bool :=
  c == ' ' || c == '\t' || c == '\n' || c == '\r' ||
  c.val == 11 || c.val == 12 || c.val == 0xa0 || c.val == 0x1680 ||
  (0x2000 ≤ c.val && c.val ≤ 0x200a) || c.val == 0x2028 || c.val == 0x2029 ||
  c.val == 0x202f || c.val == 0x205f || c.val == 0x3000 || c.val == 0xfeff

/-- JavaScript `/\s+$/.test(s)` (no multiline flag): the text matches exactly
when its final character is a `\s` character. -/
def endsInWhitespace (s : String) : Bool :=
  match s.data.getLast? with
  | none => false
  | some c => isJsWhitespace c

/-- The number of commas of a line that the splitting regular expression
`,(?=(?:(?:[^"]*"){2})*[^"]*$)` treats as delimiters: a comma splits exactly
when the remainder of the line after it contains an even number of double
quotes (that is what the lookahead recognises). -/
def smartCommas : List Char → Nat
  | [] => 0
  | c :: rest =>
    (if c = ',' ∧ rest.count '\"' % 2 = 0 then 1 else 0) + smartCommas rest

/-- `line.split(regex).length` for the quote-aware regular expression:
one more than the number of splitting commas. -/
def smartColumns (line : String) : Nat := smartCommas line.data + 1

/-- `rows[0].split(',').length`: the header is split on every comma. -/
def plainColumns (line : String) : Nat := line.data.count ',' + 1

/-- The column-count loop of `main`: the first line (in order, starting at
index `i`) whose quote-aware column count differs from the header's produces
the fatal message; `none` means every line passed. -/
def checkColumnsGo (headerCols : Nat) (filepath : String) : Nat → List String → Option String
  | _, [] => none
  | i, line :: rest =>
    if smartColumns line != headerCols then
      some ("Error: row " ++ toString (i + 1) ++ " has the wrong number of columns (" ++
        filepath ++ ")")
    else checkColumnsGo headerCols filepath (i + 1) rest

/-- What the external collaborators report for one file: `file.eol`'s detected
line-ending style, `file.read`'s raw text, and `csv.fromString`'s outcome. -/
structure FileInput where
  eol : String
  text : String
  parsed : Except String (List Row)

/-- The per-file portion of Phase 1 in `main`: the line-ending check, the
trailing-blank-lines check, the column-count check and the delegated CSV
parse, in that order, each failure short-circuiting with the fatal message
`handleError` would print. -/
def loadFile (input : FileInput) (filepath : String) : Except String (List Row) :=
  if input.eol != "CRLF" then
    Except.error ("Error: file must have line endings with CRLF (" ++ filepath ++ ")")
  else if endsInWhitespace input.text then
    Except.error ("Error: empty lines at the end of file not allowed (" ++ filepath ++ ")")
  else
    let lines := jsSplitCRLF input.text
    let headerCols := plainColumns (lines.getD 0 "")
    match checkColumnsGo headerCols filepath 0 lines with
    | some e => Except.error e
    | none =>
      match input.parsed with
      | Except.error msg => Except.error (msg ++ " (" ++ filepath ++ ")")
      | Except.ok data => Except.ok data

/-- Set a key of a JS object: an existing key keeps its position and gets the
new value; a new key is appended. -/
def setAssoc {β : Type} (m : List (String × β)) (k : String) (v : β) : List (String × β) :=
  if m.any (fun p => p.1 == k) then
    m.map (fun p => if p.1 == k then (k, v) else p)
  else m ++ [(k, v)]

/-- Truthiness of `obj[k]` for an index object whose values are rows (row
objects are always truthy): key membership. -/
def hasKey {β : Type} (m : List (String × β)) (k : String) : Bool :=
  m.any (fun p => p.1 == k)

/-- lodash `_.keyBy(rows, field)`: index the rows by the field, later rows
overwriting earlier ones on a key collision. -/
def keyBy (rows : List Row) (f : Row → String) : List (String × Row) :=
  rows.foldl (fun m r => setAssoc m (f r) r) []

/-- The `switch (filename)` of `main` choosing each table's key field. -/
def keyField (filename : String) : Row → String :=
  if filename == "blocklist" then Row.channel
  else if filename == "categories" || filename == "channels" then Row.id
  else Row.code

/-- One table's index. -/
abbrev Index := List (String × Row)

/-- The global `db` object: table name to index. -/
abbrev DB := List (String × Index)

/-- `db[table]`; every one of the seven tables is set during Phase 1, so the
default only guards the model. -/
def dbGet (db : DB) (table : String) : Index :=
  (List.lookup table db).getD []

/-- `validateChannelCategories`. -/
def validateChannelCategories (db : DB) (row : Row) (i : Nat) : List ValidationError :=
  (row.categories.map (fun category =>
    if !(hasKey (dbGet db "categories") category) then
      [{ line := i + 2,
         message := quote row.id ++ " has the wrong category " ++ quote category }]
    else [])).flatten

/-- `validateChannelCountry`. -/
def validateChannelCountry (db : DB) (row : Row) (i : Nat) : List ValidationError :=
  if !(hasKey (dbGet db "countries") row.country) then
    [{ line := i + 2,
       message := quote row.id ++ " has the wrong country " ++ quote row.country }]
  else []

/-- `validateChannelReplacedBy` (`row.replaced_by &&` is the JS falsy test,
the empty string standing for an absent value). -/
def validateChannelReplacedBy (db : DB) (row : Row) (i : Nat) : List ValidationError :=
  if row.replaced_by != "" && !(hasKey (dbGet db "channels") row.replaced_by) then
    [{ line := i + 2,
       message := quote row.id ++ " has the wrong replaced_by " ++ quote row.replaced_by }]
  else []

/-- `validateChannelSubdivision`. -/
def validateChannelSubdivision (db : DB) (row : Row) (i : Nat) : List ValidationError :=
  if row.subdivision != "" && !(hasKey (dbGet db "subdivisions") row.subdivision) then
    [{ line := i + 2,
       message := quote row.id ++ " has the wrong subdivision " ++ quote row.subdivision }]
  else []

/-- `validateChannelBroadcastArea`: `const [type, code] = area.split('/')`
takes the first two components; a one-component value leaves `code` as the JS
`undefined`, which the index lookup coerces to the property name
`"undefined"`. -/
def validateChannelBroadcastArea (db : DB) (row : Row) (i : Nat) : List ValidationError :=
  (row.broadcast_area.map (fun area =>
    let parts := jsSplitChar '/' area
    let t := parts.getD 0 ""
    let code := parts.getD 1 "undefined"
    if (t == "r" && !(hasKey (dbGet db "regions") code)) ||
       (t == "c" && !(hasKey (dbGet db "countries") code)) ||
       (t == "s" && !(hasKey (dbGet db "subdivisions") code)) then
      [{ line := i + 2,
         message := quote row.id ++ " has the wrong broadcast_area " ++ quote area }]
    else [])).flatten

/-- `validateChannelLanguages`. -/
def validateChannelLanguages (db : DB) (row : Row) (i : Nat) : List ValidationError :=
  (row.languages.map (fun language =>
    if !(hasKey (dbGet db "languages") language) then
      [{ line := i + 2,
         message := quote row.id ++ " has the wrong language " ++ quote language }]
    else [])).flatten

/-- `validateChannelId` (the blocklist rule). -/
def validateChannelId (db : DB) (row : Row) (i : Nat) : List ValidationError :=
  if !(hasKey (dbGet db "channels") row.channel) then
    [{ line := i + 2, message := quote row.channel ++ " is missing in the channels.csv" }]
  else []

/-- `validateCountryLanguage`. -/
def validateCountryLanguage (db : DB) (row : Row) (i : Nat) : List ValidationError :=
  if !(hasKey (dbGet db "languages") row.lang) then
    [{ line := i + 2,
       message := quote row.code ++ " has the wrong language " ++ quote row.lang }]
  else []

/-- `validateSubdivisionCountry`. -/
def validateSubdivisionCountry (db : DB) (row : Row) (i : Nat) : List ValidationError :=
  if !(hasKey (dbGet db "countries") row.country) then
    [{ line := i + 2,
       message := quote row.code ++ " has the wrong country " ++ quote row.country }]
  else []

/-- `validateRegionCountries`. -/
def validateRegionCountries (db : DB) (row : Row) (i : Nat) : List ValidationError :=
  (row.countries.map (fun country =>
    if !(hasKey (dbGet db "countries") country) then
      [{ line := i + 2,
         message := quote row.code ++ " has the wrong country " ++ quote country }]
    else [])).flatten

/-- The in-place mutation performed by `findDuplicatesById`:
`row.id = row.id.toLowerCase()` on every row object of the shared array. -/
def lowerIds (rows : List Row) : List Row :=
  rows.map (fun r => { r with id := jsToLower r.id })

/-- joi v17 `Joi.array().unique(comparator)`: the rule scans the array left to
right, remembering every item seen so far; at the first item equal (under the
comparator) to an earlier one it stops and reports a single `array.unique`
error whose context carries `pos` = the later index and `value` = the later
item (the rule returns on that first hit, so later collisions are not
reported, `abortEarly: false` notwithstanding — that option only lets other
rules still run). The running index equals the number of items already kept. -/
def firstDupAux (seen : List String) : List String → Option (Nat × String)
  | [] => none
  | x :: rest =>
    if seen.contains x then some (seen.length, x) else firstDupAux (seen ++ [x]) rest

/-- `findDuplicatesById`: lower-cases every row's `id` in place (the shared
row objects!), then runs the joi uniqueness rule on the ids and renders the
reported collision, if any, as a validation error. The mutated row list is
returned alongside, standing for the in-place update of the shared array. -/
def findDuplicatesById (rows : List Row) : List ValidationError × List Row :=
  let rows2 := lowerIds rows
  let errs :=
    match firstDupAux [] (rows2.map Row.id) with
    | none => []
    | some pv =>
      [{ line := pv.1 + 2,
         message := "entry with the id " ++ quote pv.2 ++ " already exists" }]
  (errs, rows2)

/-- The six referential checks run for one channels row, in the source's
order. -/
def channelRowErrors (db : DB) (row : Row) (i : Nat) : List ValidationError :=
  validateChannelBroadcastArea db row i ++
  validateChannelSubdivision db row i ++
  validateChannelCategories db row i ++
  validateChannelReplacedBy db row i ++
  validateChannelLanguages db row i ++
  validateChannelCountry db row i

/-- The duplicate-plus-referential part of validating one file, dispatched on
the table name exactly as `main` does; returns the per-file errors so far
together with the (possibly mutated) row array. -/
def validateTableRows (db : DB) (filename : String) (rows : List Row) :
    List ValidationError × List Row :=
  if filename == "channels" then
    let pr := findDuplicatesById rows
    (pr.2.enum.foldl (fun acc p => acc ++ channelRowErrors db p.2 p.1) pr.1, pr.2)
  else if filename == "blocklist" then
    (rows.enum.foldl (fun acc p => acc ++ validateChannelId db p.2 p.1) [], rows)
  else if filename == "countries" then
    (rows.enum.foldl (fun acc p => acc ++ validateCountryLanguage db p.2 p.1) [], rows)
  else if filename == "subdivisions" then
    (rows.enum.foldl (fun acc p => acc ++ validateSubdivisionCountry db p.2 p.1) [], rows)
  else if filename == "regions" then
    (rows.enum.foldl (fun acc p => acc ++ validateRegionCountries db p.2 p.1) [], rows)
  else ([], rows)

/-- The joi schema pass of `main`: for every row, in order, the schema's error
details are appended, each tagged with the row's line number. The rule sets
themselves live in `scripts/db/schemes` and are abstracted as a function from
row to detail messages. -/
def schemaErrorsFor (schemeFn : Row → List String) (rows : List Row) : List ValidationError :=
  rows.enum.foldl
    (fun acc p => acc ++ (schemeFn p.2).map (fun m => { line := p.1 + 2, message := m })) []

/-- Validation of one requested file: duplicate and referential errors first
(as `validateTableRows` accumulates them), then the schema errors, all over
the row array as it stands after the duplicate check's mutation. -/
def fileValidate (schemeFn : Row → List String) (db : DB) (filename : String)
    (rows : List Row) : List ValidationError × List Row :=
  let pr := validateTableRows db filename rows
  (pr.1 ++ schemaErrorsFor schemeFn pr.2, pr.2)

/-- `file.getFilename`: base name of the path without its extension. -/
def getFilename (filepath : String) : String :=
  (jsSplitChar '.' ((jsSplitChar '/' filepath).getLastD filepath)).getD 0 ""

/-- The fixed list of the seven known table files. -/
def allFiles : List String :=
  ["data/blocklist.csv", "data/categories.csv", "data/channels.csv",
   "data/countries.csv", "data/languages.csv", "data/regions.csv",
   "data/subdivisions.csv"]

/-- The global mutable state `db` and `files` after Phase 1. -/
structure LoadedState where
  db : DB
  files : List (String × List Row)
deriving DecidableEq

/-- Phase 1 of `main`: load, check and index every known file, failing fast
on the first format or parse error. -/
def phase1Go (env : String → FileInput) : List String → LoadedState → Except String LoadedState
  | [], st => Except.ok st
  | fp :: rest, st =>
    if !(strEndsWith fp ".csv") then phase1Go env rest st
    else
      match loadFile (env fp) fp with
      | Except.error e => Except.error e
      | Except.ok data =>
        let filename := getFilename fp
        phase1Go env rest
          { db := setAssoc st.db filename (keyBy data (keyField filename)),
            files := setAssoc st.files filename data }

/-- Phase 1 starting from the empty `db` and `files`. -/
def phase1 (env : String → FileInput) : Except String LoadedState :=
  phase1Go env allFiles { db := [], files := [] }

/-- Phase 2 of `main`: validate each requested file against the shared
database, accumulating the errors; an unknown scheme is fatal. The mutated
row arrays are written back into the shared `files` state, as the in-place
mutation does. -/
def phase2Go (schemes : String → Option (Row → List String)) :
    List String → LoadedState → List ValidationError → Except String (List ValidationError)
  | [], _, acc => Except.ok acc
  | fp :: rest, st, acc =>
    let filename := getFilename fp
    match schemes filename with
    | none => Except.error ("Error: " ++ quote filename ++ " scheme is missing")
    | some schemeFn =>
      let rows := (List.lookup filename st.files).getD []
      let res := fileValidate schemeFn st.db filename rows
      phase2Go schemes rest { st with files := setAssoc st.files filename res.2 }
        (acc ++ res.1)

/-- The whole run of `main`: Phase 1 over all known files, then Phase 2 over
the requested files (all of them when no arguments are given). A fatal error
is `Except.error`; a completed run carries the accumulated error list. -/
def run (env : String → FileInput) (schemes : String → Option (Row → List String))
    (args : List String) : Except String (List ValidationError) :=
  match phase1 env with
  | Except.error e => Except.error e
  | Except.ok st => phase2Go schemes (if args.isEmpty then allFiles else args) st []

/-- The process exit status: `handleError` exits with 1; a completed run exits
1 exactly when the accumulated error list is nonempty (the final
`if (globalErrors.length) return handleError(...)`), else 0. -/
def exitCode (r : Except String (List ValidationError)) : Nat :=
  match r with
  | Except.error _ => 1
  | Except.ok errors => if errors.isEmpty then 0 else 1

/-! Claim-side definitions: formulations taken from the specification's words,
to be compared with the definitions above that transcribe the source. -/

/-- The broadcast-area reference rule as the spec words it: the element is
split into `type/code`; type `r` checks the regions index, `c` the countries
index, `s` the subdivisions index, and any other type passes. -/
def specBroadcastAreaBad (db : DB) (area : String) : Bool :=
  let parts := jsSplitChar '/' area
  let t := parts.getD 0 ""
  let code := parts.getD 1 "undefined"
  if t == "r" then !(hasKey (dbGet db "regions") code)
  else if t == "c" then !(hasKey (dbGet db "countries") code)
  else if t == "s" then !(hasKey (dbGet db "subdivisions") code)
  else false

/-- The least row index holding an id already seen at a smaller index
(the first duplicate occurrence, in scan order). -/
def firstDupIndex (l : List String) : Option Nat :=
  (List.range l.length).find? (fun i => (l.take i).contains (l.getD i ""))

/-- The duplicate-detection segment of a file's error list: only the channels
table runs the duplicate check. -/
def dupPart (filename : String) (rows : List Row) : List ValidationError :=
  if filename == "channels" then (findDuplicatesById rows).1 else []

/-- The row array a table holds after its validation pass: the channels rows
have their ids lower-cased in place by the duplicate check; every other
table's rows are untouched. -/
def mutatedRows (filename : String) (rows : List Row) : List Row :=
  if filename == "channels" then lowerIds rows else rows

/-- The referential rules one row of the given table is subject to. -/
def refRowErrors (db : DB) (filename : String) (row : Row) (i : Nat) : List ValidationError :=
  if filename == "channels" then channelRowErrors db row i
  else if filename == "blocklist" then validateChannelId db row i
  else if filename == "countries" then validateCountryLanguage db row i
  else if filename == "subdivisions" then validateSubdivisionCountry db row i
  else if filename == "regions" then validateRegionCountries db row i
  else []

/-- A piece of a CSV line: either unquoted text or a double-quoted field body
(rendered with its surrounding quotes). -/
inductive CsvPiece where
  | raw (s : List Char)
  | quoted (s : List Char)

/-- Render one piece: a quoted piece gets its enclosing pair of double
quotes. -/
def renderPiece : CsvPiece → List Char
  | CsvPiece.raw s => s
  | CsvPiece.quoted s => '\"' :: (s ++ ['\"'])

/-- Render a line from its pieces. -/
def renderLine (ps : List CsvPiece) : List Char := (ps.map renderPiece).flatten

/-- A well-formed piece contains no double quote of its own, so the rendered
line's quotes are exactly the balanced pairs around the quoted pieces. -/
def pieceNoQuote : CsvPiece → Prop
  | CsvPiece.raw s => '\"' ∉ s
  | CsvPiece.quoted s => '\"' ∉ s

instance : DecidablePred pieceNoQuote := fun p =>
  match p with
  | CsvPiece.raw s => inferInstanceAs (Decidable ('\"' ∉ s))
  | CsvPiece.quoted s => inferInstanceAs (Decidable ('\"' ∉ s))

/-- The commas standing outside every quoted piece: the field delimiters. -/
def rawCommas : List CsvPiece → Nat
  | [] => 0
  | CsvPiece.raw s :: ps => s.count ',' + rawCommas ps
  | CsvPiece.quoted _ :: ps => rawCommas ps

/-! Concrete data used by counterexamples and witnesses. -/

/-- A file whose format checks all pass (CRLF endings, a single header line
with one column, no trailing newline) and whose parse yields the given
rows. -/
def okInput (parsed : List Row) : FileInput :=
  { eol := "CRLF", text := "id", parsed := Except.ok parsed }

/-- A channels row whose every reference resolves in `cleanEnv`. -/
def cleanChannel : Row :=
  { id := "BBCOne.uk", country := "uk", categories := ["kids"], languages := ["eng"],
    broadcast_area := ["c/uk", "x/ignored"] }

/-- A minimal, mutually consistent seven-table dataset: every foreign key
resolves and there are no duplicates. -/
def cleanEnv : String → FileInput := fun fp =>
  if fp == "data/blocklist.csv" then okInput [{ channel := "BBCOne.uk" }]
  else if fp == "data/categories.csv" then okInput [{ id := "kids" }]
  else if fp == "data/channels.csv" then okInput [cleanChannel]
  else if fp == "data/countries.csv" then okInput [{ code := "uk", lang := "eng" }]
  else if fp == "data/languages.csv" then okInput [{ code := "eng" }]
  else if fp == "data/regions.csv" then okInput [{ code := "EU", countries := ["uk"] }]
  else okInput [{ code := "uk-eng", country := "uk" }]

/-- Modelled from the spec: `scripts/db/schemes` (not under `src/`) assigns
each of the seven tables a fixed joi rule set; its per-field content is
irrelevant to the claims settled here, so the stub accepts every row while
keeping the lookup structure (`schemes[filename]` truthiness) intact. -/
def schemesStub : String → Option (Row → List String) := fun n =>
  if n ∈ ["blocklist", "categories", "channels", "countries", "languages",
          "regions", "subdivisions"] then
    some (fun _ => [])
  else none

/-- `cleanEnv`, except that the channels row carries the unknown category
`xxx` (the spec's concrete scenario for the category check). -/
def envC1 : String → FileInput := fun fp =>
  if fp == "data/channels.csv" then
    okInput [{ cleanChannel with categories := ["kids", "xxx"] }]
  else cleanEnv fp

/-- `cleanEnv`, except that the blocklist file's detected line-ending style is
LF: a format violation in a file nobody asked to validate. -/
def envBadEol : String → FileInput := fun fp =>
  if fp == "data/blocklist.csv" then { eol := "LF", text := "id", parsed := Except.ok [] }
  else cleanEnv fp

/-! Helper lemmas. -/

/-- A loop that appends each element's contribution equals the initial value
followed by the flattened contributions. -/
theorem foldl_append_eq_flatten {α β : Type} (f : α → List β) (l : List α) (init : List β) :
    l.foldl (fun acc x => acc ++ f x) init = init ++ (l.map f).flatten := by
  induction l generalizing init with
  | nil => simp
  | cons x xs ih => simp [ih, List.append_assoc]

/-- Key membership after a JS-object assignment. -/
theorem hasKey_setAssoc {β : Type} (m : List (String × β)) (k k' : String) (v : β) :
    hasKey (setAssoc m k v) k' = true ↔ k = k' ∨ hasKey m k' = true := by
  unfold hasKey setAssoc
  by_cases h : m.any (fun p => p.1 == k) = true
  · rw [if_pos h, List.any_map, List.any_eq_true]
    rw [List.any_eq_true] at h
    obtain ⟨q, hq, hqk⟩ := h
    constructor
    · rintro ⟨p, hp, hval⟩
      have hval' : ((if (p.1 == k) = true then (k, v) else p).1 == k') = true := hval
      by_cases hpk : (p.1 == k) = true
      · rw [if_pos hpk] at hval'
        exact Or.inl (beq_iff_eq.mp hval')
      · rw [if_neg hpk] at hval'
        exact Or.inr (List.any_eq_true.mpr ⟨p, hp, hval'⟩)
    · rintro (hkk | hm)
      · refine ⟨q, hq, ?_⟩
        show ((if (q.1 == k) = true then (k, v) else q).1 == k') = true
        rw [if_pos hqk]
        exact beq_iff_eq.mpr hkk
      · obtain ⟨p, hp, hpk'⟩ := List.any_eq_true.mp hm
        refine ⟨p, hp, ?_⟩
        show ((if (p.1 == k) = true then (k, v) else p).1 == k') = true
        by_cases hpk : (p.1 == k) = true
        · rw [if_pos hpk]
          exact beq_iff_eq.mpr ((beq_iff_eq.mp hpk).symm.trans (beq_iff_eq.mp hpk'))
        · rw [if_neg hpk]; exact hpk'
  · rw [if_neg h, List.any_append]
    simp only [List.any_cons, List.any_nil, Bool.or_false, Bool.or_eq_true, List.any_eq_true]
    constructor
    · rintro (⟨p, hp, hval⟩ | hk)
      · exact Or.inr ⟨p, hp, hval⟩
      · exact Or.inl (by simpa using hk)
    · rintro (hkk | ⟨p, hp, hval⟩)
      · exact Or.inr (by simpa using hkk)
      · exact Or.inl ⟨p, hp, hval⟩

/-- The keys of a `keyBy` index are exactly the key-field values of the rows,
verbatim. -/
theorem hasKey_keyBy (rows : List Row) (f : Row → String) (k : String) :
    hasKey (keyBy rows f) k = true ↔ ∃ r ∈ rows, f r = k := by
  suffices h : ∀ m : Index, hasKey (rows.foldl (fun m r => setAssoc m (f r) r) m) k = true ↔
      hasKey m k = true ∨ ∃ r ∈ rows, f r = k by
    have h2 := h []
    simpa [keyBy, hasKey] using h2
  induction rows with
  | nil => intro m; simp
  | cons r rs ih =>
    intro m
    rw [List.foldl_cons, ih, hasKey_setAssoc]
    simp only [List.mem_cons]
    constructor
    · rintro ((hfk | hm) | ⟨x, hx, hfx⟩)
      · exact Or.inr ⟨r, Or.inl rfl, hfk⟩
      · exact Or.inl hm
      · exact Or.inr ⟨x, Or.inr hx, hfx⟩
    · rintro (hm | ⟨x, hx | hx, hfx⟩)
      · exact Or.inl (Or.inr hm)
      · exact Or.inl (Or.inl (hx ▸ hfx))
      · exact Or.inr ⟨x, hx, hfx⟩

/-- The joi uniqueness rule reports the least index whose element already
occurs earlier, paired with that element. -/
theorem firstDupAux_spec (l seen : List String) :
    firstDupAux seen l =
      Option.map (fun i => (seen.length + i, l.getD i ""))
        ((List.range l.length).find? (fun i => (seen ++ l.take i).contains (l.getD i ""))) := by
  induction l generalizing seen with
  | nil => rfl
  | cons x xs ih =>
    rw [firstDupAux, List.length_cons, List.range_succ_eq_map, List.find?_cons]
    by_cases hx : seen.contains x = true
    · rw [if_pos hx]
      simp only [List.take_zero, List.append_nil, List.getD_cons_zero, hx]
      rfl
    · have hx0 : seen.contains x = false := by simpa using hx
      rw [if_neg hx, ih (seen ++ [x])]
      simp only [List.take_zero, List.append_nil, List.getD_cons_zero, hx0]
      rw [List.find?_map, Option.map_map]
      have hp : ((fun i => ((seen ++ (x :: xs).take i).contains ((x :: xs).getD i ""))) ∘
          Nat.succ) = fun i => (((seen ++ [x]) ++ xs.take i).contains (xs.getD i "")) := by
        funext i
        simp only [Function.comp_apply, List.take_succ_cons, List.getD_cons_succ]
        rw [List.append_cons]
      rw [hp]
      cases hfind : (List.range xs.length).find?
          (fun i => (((seen ++ [x]) ++ xs.take i).contains (xs.getD i ""))) with
      | none => rfl
      | some i =>
        simp only [Option.map_some', Function.comp_apply, List.getD_cons_succ,
          List.length_append, List.length_singleton, Prod.mk.injEq, Option.some.injEq]
        exact ⟨by omega, trivial⟩

/-- The disjunction tested by the broadcast-area validator equals the spec's
three-way dispatch: at most one of the three type tests can hold. -/
theorem orCond_eq_chain (t : String) (br bc bs : Bool) :
    (((t == "r") && br) || ((t == "c") && bc) || ((t == "s") && bs)) =
      (if t == "r" then br else if t == "c" then bc else if t == "s" then bs else false) := by
  by_cases h1 : t = "r"
  · subst h1; cases br <;> cases bc <;> cases bs <;> rfl
  · by_cases h2 : t = "c"
    · subst h2; cases br <;> cases bc <;> cases bs <;> rfl
    · by_cases h3 : t = "s"
      · subst h3; cases br <;> cases bc <;> cases bs <;> rfl
      · have e1 : (t == "r") = false := beq_eq_false_iff_ne.mpr h1
        have e2 : (t == "c") = false := beq_eq_false_iff_ne.mpr h2
        have e3 : (t == "s") = false := beq_eq_false_iff_ne.mpr h3
        rw [e1, e2, e3]
        cases br <;> cases bc <;> cases bs <;> rfl

/-- Appending after quote-free text: a comma of the quote-free part splits
exactly when the tail carries an even number of quotes. -/
theorem smartCommas_append_noquote (s y : List Char) (hs : '\"' ∉ s) :
    smartCommas (s ++ y) =
      (if y.count '\"' % 2 = 0 then s.count ',' else 0) + smartCommas y := by
  induction s with
  | nil => simp [smartCommas, List.count_nil]
  | cons c cs ih =>
    have hc : c ≠ '\"' := fun h => hs (h ▸ List.mem_cons_self c cs)
    have hcs : '\"' ∉ cs := fun h => hs (List.mem_cons_of_mem c h)
    have hcnt : cs.count '\"' = 0 := List.count_eq_zero.mpr hcs
    rw [List.cons_append, smartCommas, ih hcs, List.count_append, hcnt, Nat.zero_add]
    by_cases hy : y.count '\"' % 2 = 0
    · rw [if_pos hy, if_pos hy]
      by_cases hcc : c = ','
      · rw [if_pos ⟨hcc, hy⟩, List.count_cons]
        have hb : (c == ',') = true := beq_iff_eq.mpr hcc
        rw [hb]
        simp only [eq_self_iff_true, if_true]
        omega
      · have hb : (c == ',') = false := beq_eq_false_iff_ne.mpr hcc
        rw [if_neg (fun h => hcc h.1), List.count_cons, hb]
        simp only [Bool.false_eq_true, if_false]
        omega
    · rw [if_neg hy, if_neg hy, if_neg (fun h => hy h.2)]
      omega

/-- A line rendered from quote-free pieces carries an even number of double
quotes: one balanced pair per quoted piece. -/
theorem count_quote_renderLine (ps : List CsvPiece) (h : ∀ p ∈ ps, pieceNoQuote p) :
    (renderLine ps).count '\"' % 2 = 0 := by
  induction ps with
  | nil => rfl
  | cons p ps ih =>
    have hp : pieceNoQuote p := h p (List.mem_cons_self p ps)
    have hps : ∀ q ∈ ps, pieceNoQuote q := fun q hq => h q (List.mem_cons_of_mem p hq)
    have ihe := ih hps
    cases p with
    | raw s =>
      have hcnt : s.count '\"' = 0 := List.count_eq_zero.mpr hp
      simp only [renderLine, List.map_cons, List.flatten_cons, renderPiece,
        List.count_append]
      rw [hcnt]
      simpa [renderLine] using ihe
    | quoted s =>
      have hcnt : s.count '\"' = 0 := List.count_eq_zero.mpr hp
      simp only [renderLine, List.map_cons, List.flatten_cons, renderPiece,
        List.count_cons, List.count_append]
      rw [hcnt]
      simp only [List.count_cons, List.count_nil, beq_self_eq_true, if_true]
      have : (renderLine ps).count '\"' % 2 = 0 := ihe
      simp only [renderLine] at this
      omega

/-- The quote-aware delimiter count of a rendered line is the number of commas
standing in its unquoted pieces: quoted commas never split. -/
theorem smartCommas_renderLine (ps : List CsvPiece) (h : ∀ p ∈ ps, pieceNoQuote p) :
    smartCommas (renderLine ps) = rawCommas ps := by
  induction ps with
  | nil => rfl
  | cons p ps ih =>
    have hp : pieceNoQuote p := h p (List.mem_cons_self p ps)
    have hps : ∀ q ∈ ps, pieceNoQuote q := fun q hq => h q (List.mem_cons_of_mem p hq)
    have heven : (renderLine ps).count '\"' % 2 = 0 := count_quote_renderLine ps hps
    cases p with
    | raw s =>
      show smartCommas (s ++ renderLine ps) = s.count ',' + rawCommas ps
      rw [smartCommas_append_noquote s (renderLine ps) hp, if_pos heven, ih hps]
    | quoted s =>
      show smartCommas ('\"' :: (s ++ ['\"']) ++ renderLine ps) = rawCommas ps
      rw [List.cons_append, smartCommas]
      have hnc : ¬('\"' = ',' ∧ ((s ++ ['\"']) ++ renderLine ps).count '\"' % 2 = 0) :=
        fun hcon => by cases hcon.1
      rw [if_neg hnc, List.append_assoc, List.singleton_append,
        smartCommas_append_noquote s ('\"' :: renderLine ps) hp]
      have hodd : ('\"' :: renderLine ps).count '\"' % 2 ≠ 0 := by
        rw [List.count_cons, beq_self_eq_true, if_pos rfl]
        omega
      rw [if_neg hodd, Nat.zero_add, smartCommas]
      have hnc2 : ¬('\"' = ',' ∧ (renderLine ps).count '\"' % 2 = 0) :=
        fun hcon => by cases hcon.1
      rw [if_neg hnc2, Nat.zero_add, ih hps]
      omega

/-- The column-count loop accepts exactly when every line has the header's
quote-aware column count, whatever the running index. -/
theorem checkColumnsGo_eq_none (headerCols : Nat) (fp : String) (lines : List String) :
    ∀ i, (checkColumnsGo headerCols fp i lines = none ↔
      ∀ line ∈ lines, smartColumns line = headerCols) := by
  induction lines with
  | nil => intro i; simp [checkColumnsGo]
  | cons line rest ih =>
    intro i
    rw [checkColumnsGo]
    by_cases hl : smartColumns line = headerCols
    · have : (smartColumns line != headerCols) = false := by simp [hl]
      rw [this, if_neg (by simp)]
      rw [ih (i + 1)]
      constructor
      · intro hall l hmem
        rcases List.mem_cons.mp hmem with h | h
        · exact h ▸ hl
        · exact hall l h
      · intro hall l hmem
        exact hall l (List.mem_cons_of_mem line hmem)
    · have : (smartColumns line != headerCols) = true := by simpa using hl
      rw [this, if_pos rfl]
      constructor
      · intro hcon; cases hcon
      · intro hall
        exact absurd (hall line (List.mem_cons_self line rest)) hl

/-- A format or parse failure at any `.csv` member of the Phase 1 worklist
makes the whole of Phase 1 fail, whatever state it has reached. -/
theorem phase1Go_error_of_mem (env : String → FileInput) (fps : List String)
    (st : LoadedState) (fp : String) (emsg : String) (hmem : fp ∈ fps)
    (hcsv : strEndsWith fp ".csv" = true)
    (herr : loadFile (env fp) fp = Except.error emsg) :
    ∃ m, phase1Go env fps st = Except.error m := by
  induction fps generalizing st with
  | nil => cases hmem
  | cons f rest ih =>
    rcases List.mem_cons.mp hmem with h | h
    · subst h
      rw [phase1Go, hcsv]
      simp only [Bool.not_true, Bool.false_eq_true, if_false]
      rw [herr]
      exact ⟨emsg, rfl⟩
    · rw [phase1Go]
      by_cases hc : strEndsWith f ".csv" = true
      · rw [hc]
        simp only [Bool.not_true, Bool.false_eq_true, if_false]
        cases hload : loadFile (env f) f with
        | error e => exact ⟨e, rfl⟩
        | ok data => exact ih _ h
      · have hcf : strEndsWith f ".csv" = false := by simpa using hc
        rw [hcf]
        simp only [Bool.not_false, if_true]
        exact ih _ h

/-! Claim theorems. -/

/-- C1, counterexample: in the spec's concrete scenario (channels row
`id=BBCOne.uk` with the unknown category `xxx`), the run's only error message
is NOT the claimed `"BBCOne.uk" has the wrong category "xxx"`: the emitted
message quotes `bbcone.uk`, because `findDuplicatesById` lower-cases the
shared row's `id` in place before the category validator reads it. -/
theorem C1_counterexample :
    run envC1 schemesStub [] =
      Except.ok [{ line := 2, message := "\"bbcone.uk\" has the wrong category \"xxx\"" }] ∧
    "\"bbcone.uk\" has the wrong category \"xxx\"" ≠
      "\"BBCOne.uk\" has the wrong category \"xxx\"" ∧
    exitCode (run envC1 schemesStub []) = 1 :=
  ⟨rfl, by decide, rfl⟩

/-- C1 (amended): the scenario produces exactly one error, at the row's line
number (position 0 + 2 = 2), whose message quotes the LOWER-CASED id
(`jsToLower "BBCOne.uk"`), and the run exits with failure status 1. -/
theorem C1_theorem :
    run envC1 schemesStub [] =
      Except.ok [{ line := 0 + 2,
                   message := quote (jsToLower "BBCOne.uk") ++
                     " has the wrong category " ++ quote "xxx" }] ∧
    exitCode (run envC1 schemesStub []) = 1 :=
  ⟨rfl, rfl⟩

/-- C2, counterexample: Phase 1 indexes the channels table under the
ORIGINAL-case id — the built channels index has the key `BBCOne.uk`, which is
not lower-case — refuting the claim that the Index Builder lower-cases every
channels key before indexing. -/
theorem C2_counterexample :
    (match phase1 cleanEnv with
     | Except.ok st => (dbGet st.db "channels").map Prod.fst
     | Except.error _ => []) = ["BBCOne.uk"] ∧
    jsToLower "BBCOne.uk" ≠ "BBCOne.uk" :=
  ⟨rfl, by decide⟩

/-- C2 (amended): the Index Builder indexes EVERY table verbatim, the channels
table included: a key is present in the channels index exactly when some row
carries it as its literal `id`, and in the blocklist index exactly when some
row carries it as its literal `channel`; the downstream foreign-key lookups
(`validateChannelId`, `validateChannelReplacedBy`) consult these verbatim
keys via the same `hasKey` membership. -/
theorem C2_theorem (rows : List Row) (k : String) :
    (hasKey (keyBy rows (keyField "channels")) k = true ↔ ∃ r ∈ rows, r.id = k) ∧
    (hasKey (keyBy rows (keyField "blocklist")) k = true ↔ ∃ r ∈ rows, r.channel = k) := by
  have hc : keyField "channels" = Row.id := rfl
  have hb : keyField "blocklist" = Row.channel := rfl
  rw [hc, hb]
  exact ⟨hasKey_keyBy rows Row.id k, hasKey_keyBy rows Row.channel k⟩

/-- C3, counterexample: with three rows whose ids collide case-insensitively
(`a`, `A`, `a`), the detector reports exactly ONE error — for the first
collision, at line 3 — and no error at line 4, refuting the claim that every
row beyond the first sharing a normalized id gets its own error. -/
theorem C3_counterexample :
    (findDuplicatesById [{ id := "a" }, { id := "A" }, { id := "a" }]).1 =
      [{ line := 3, message := "entry with the id \"a\" already exists" }] ∧
    ({ line := 4, message := "entry with the id \"a\" already exists" } : ValidationError) ∉
      (findDuplicatesById [{ id := "a" }, { id := "A" }, { id := "a" }]).1 :=
  ⟨rfl, by decide⟩

/-- C3 (amended): the detector compares ids case-insensitively (lower-casing
them in place) and reports AT MOST ONE error: none when no id repeats, and
otherwise a single error for the FIRST row (least index) whose lower-cased id
already occurred earlier, at that row's own position + 2, naming the colliding
lower-cased id; the first occurrence itself and any later collisions produce
no error. -/
theorem C3_theorem (rows : List Row) :
    (findDuplicatesById rows).1 =
      (match firstDupIndex ((lowerIds rows).map Row.id) with
       | none => []
       | some i =>
         [{ line := i + 2,
            message := "entry with the id " ++
              quote (((lowerIds rows).map Row.id).getD i "") ++ " already exists" }]) := by
  unfold findDuplicatesById firstDupIndex
  simp only []
  rw [firstDupAux_spec]
  simp only [List.nil_append, List.length_nil, Nat.zero_add]
  cases hfind : (List.range ((lowerIds rows).map Row.id).length).find?
      (fun i => ((((lowerIds rows).map Row.id).take i).contains
        (((lowerIds rows).map Row.id).getD i ""))) with
  | none => rfl
  | some i => rfl

/-- C9, counterexample: validating the channels table DOES mutate the shared
rows — after the pass, the row's `id` is `bbcone.uk`, no longer the
`BBCOne.uk` it held after Phase 1 indexing — refuting the claim that no
validator mutates shared state. -/
theorem C9_counterexample :
    (fileValidate (fun _ => []) [] "channels" [{ id := "BBCOne.uk" }]).2 ≠
      [{ id := "BBCOne.uk" }] := by
  decide

/-- C9 (amended): the only mutation of Phase 2 is the duplicate detector's
in-place lower-casing of channels ids: the rows a table holds after its
validation pass are `lowerIds rows` for channels and the untouched `rows` for
every other table, and even for channels every field other than `id` is
preserved. -/
theorem C9_theorem (schemeFn : Row → List String) (db : DB) (filename : String)
    (rows : List Row) :
    (fileValidate schemeFn db filename rows).2 = mutatedRows filename rows ∧
    (mutatedRows filename rows).map (fun r => { r with id := "" }) =
      rows.map (fun r => { r with id := "" }) := by
  constructor
  · unfold fileValidate validateTableRows mutatedRows
    by_cases h1 : (filename == "channels") = true
    · rw [if_pos h1, if_pos h1]
      rfl
    · rw [if_neg h1, if_neg h1]
      by_cases h2 : (filename == "blocklist") = true
      · rw [if_pos h2]
      · rw [if_neg h2]
        by_cases h3 : (filename == "countries") = true
        · rw [if_pos h3]
        · rw [if_neg h3]
          by_cases h4 : (filename == "subdivisions") = true
          · rw [if_pos h4]
          · rw [if_neg h4]
            by_cases h5 : (filename == "regions") = true
            · rw [if_pos h5]
            · rw [if_neg h5]
  · unfold mutatedRows
    by_cases h1 : (filename == "channels") = true
    · rw [if_pos h1]
      unfold lowerIds
      rw [List.map_map]
      rfl
    · rw [if_neg h1]

/-- Flattening per-element singleton-or-empty contributions is filtering and
mapping. -/
theorem flatten_map_if {α β : Type} (p : α → Bool) (g : α → β) (l : List α)
    (f : α → List β) (hf : ∀ a, f a = if p a then [g a] else []) :
    (l.map f).flatten = (l.filter p).map g := by
  induction l with
  | nil => rfl
  | cons a t ih =>
    rw [List.map_cons, List.flatten_cons, hf, List.filter_cons, ih]
    by_cases hp : p a = true
    · rw [if_pos hp, if_pos hp]
      rfl
    · rw [if_neg hp, if_neg hp]
      rfl

/-- C4: the broadcast-area validator produces exactly one error — naming the
row's id and the full area value, at the row's line — per element whose
`type/code` split fails its dispatched index lookup under the spec's
three-way rule (`r` → regions, `c` → countries, `s` → subdivisions), and no
error for any element with an unrecognized type (`specBroadcastAreaBad` is
false whenever the type is none of `r`, `c`, `s`). -/
theorem C4_theorem (db : DB) (row : Row) (i : Nat) :
    validateChannelBroadcastArea db row i =
      (row.broadcast_area.filter (specBroadcastAreaBad db)).map (fun area =>
        { line := i + 2,
          message := quote row.id ++ " has the wrong broadcast_area " ++ quote area }) := by
  unfold validateChannelBroadcastArea
  apply flatten_map_if
  intro area
  simp only [specBroadcastAreaBad, orCond_eq_chain]

/-- C5: a format or parse failure in ANY of the seven known table files —
requested for validation or not — aborts the whole run with a fatal error
during Phase 1, before any validation, so the run carries no accumulated
error list and exits with status 1. -/
theorem C5_theorem (env : String → FileInput) (schemes : String → Option (Row → List String))
    (args : List String) (fp : String) (emsg : String) (hmem : fp ∈ allFiles)
    (herr : loadFile (env fp) fp = Except.error emsg) :
    (∃ m, run env schemes args = Except.error m) ∧ exitCode (run env schemes args) = 1 := by
  have hcsv : strEndsWith fp ".csv" = true := by
    fin_cases hmem <;> rfl
  obtain ⟨m, hm⟩ :=
    phase1Go_error_of_mem env allFiles { db := [], files := [] } fp emsg hmem hcsv herr
  have hrun : run env schemes args = Except.error m := by
    unfold run phase1
    rw [hm]
  refine ⟨⟨m, hrun⟩, ?_⟩
  rw [hrun]
  rfl

/-- C5, witness: the blocklist file has LF endings while only channels.csv is
requested; the run still fails with exit status 1. -/
theorem C5_witness : exitCode (run envBadEol schemesStub ["data/channels.csv"]) = 1 :=
  (C5_theorem envBadEol schemesStub ["data/channels.csv"] "data/blocklist.csv"
    "Error: file must have line endings with CRLF (data/blocklist.csv)"
    (by decide) rfl).2

/-- C6: each validated file's error list is, deterministically: the
duplicate-detection errors first, then the referential errors row by row (all
of row 0's reference rules, then row 1's, ...), then the schema-field errors
row by row — over the row array as it stands after the duplicate check. -/
theorem C6_theorem (schemeFn : Row → List String) (db : DB) (filename : String)
    (rows : List Row) :
    (fileValidate schemeFn db filename rows).1 =
      dupPart filename rows ++
      (((mutatedRows filename rows).enum.map
          (fun p => refRowErrors db filename p.2 p.1)).flatten ++
        ((mutatedRows filename rows).enum.map
          (fun p => (schemeFn p.2).map
            (fun m => { line := p.1 + 2, message := m }))).flatten) := by
  have hfd : (findDuplicatesById rows).2 = lowerIds rows := rfl
  unfold fileValidate validateTableRows schemaErrorsFor dupPart mutatedRows refRowErrors
  by_cases h1 : (filename == "channels") = true
  · simp only [h1, if_true]
    simp only [foldl_append_eq_flatten]
    simp [hfd, List.append_assoc]
  · have h1b : (filename == "channels") = false := by simpa using h1
    simp only [h1b, if_false]
    by_cases h2 : (filename == "blocklist") = true
    · simp only [h2, if_true]
      simp only [foldl_append_eq_flatten]
      simp
    · have h2b : (filename == "blocklist") = false := by simpa using h2
      simp only [h2b, if_false]
      by_cases h3 : (filename == "countries") = true
      · simp only [h3, if_true]
        simp only [foldl_append_eq_flatten]
        simp
      · have h3b : (filename == "countries") = false := by simpa using h3
        simp only [h3b, if_false]
        by_cases h4 : (filename == "subdivisions") = true
        · simp only [h4, if_true]
          simp only [foldl_append_eq_flatten]
          simp
        · have h4b : (filename == "subdivisions") = false := by simpa using h4
          simp only [h4b, if_false]
          by_cases h5 : (filename == "regions") = true
          · simp only [h5, if_true]
            simp only [foldl_append_eq_flatten]
            simp
          · have h5b : (filename == "regions") = false := by simpa using h5
            simp only [h5b, if_false]
            simp only [foldl_append_eq_flatten]
            simp

/-- C7: given the run completed (no fatal error), the exit status is 0 exactly
when the accumulated error count across all validated files is zero, and 1
whenever that count is nonzero. -/
theorem C7_theorem (env : String → FileInput) (schemes : String → Option (Row → List String))
    (args : List String) (errors : List ValidationError)
    (h : run env schemes args = Except.ok errors) :
    (exitCode (run env schemes args) = 0 ↔ errors.length = 0) ∧
    (errors.length ≠ 0 → exitCode (run env schemes args) = 1) := by
  rw [h]
  unfold exitCode
  cases errors with
  | nil => simp
  | cons e t => simp

/-- C7, witness: on a mutually consistent dataset the run completes with zero
errors and exit status 0. -/
theorem C7_witness : exitCode (run cleanEnv schemesStub []) = 0 :=
  ((C7_theorem cleanEnv schemesStub [] [] rfl).1).mpr rfl

/-- C8: on a line whose commas inside double-quoted fields are balanced (each
quoted piece carries its own pair of quotes and no stray quote occurs), the
quote-aware split counts exactly one column per unquoted comma plus one — a
quoted delimiter contributes no extra column — and the column-count loop
passes a file exactly when every line's quote-aware column count equals the
header's. -/
theorem C8_theorem (ps : List CsvPiece) (lines : List String) (headerCols : Nat)
    (fp : String) (h : ∀ p ∈ ps, pieceNoQuote p) :
    smartColumns (String.mk (renderLine ps)) = rawCommas ps + 1 ∧
    (checkColumnsGo headerCols fp 0 lines = none ↔
      ∀ line ∈ lines, smartColumns line = headerCols) := by
  constructor
  · show smartCommas (renderLine ps) + 1 = rawCommas ps + 1
    rw [smartCommas_renderLine ps h]
  · exact checkColumnsGo_eq_none headerCols fp lines 0

/-- C8, witness: the line `a,"b,c",d` has three quote-aware columns — the
quoted comma does not split. -/
theorem C8_witness :
    smartColumns (String.mk (renderLine
      [CsvPiece.raw "a,".data, CsvPiece.quoted "b,c".data, CsvPiece.raw ",d".data])) = 3 := by
  rw [(C8_theorem [CsvPiece.raw "a,".data, CsvPiece.quoted "b,c".data, CsvPiece.raw ",d".data]
    [] 3 "" (by decide)).1]
  rfl

/-- C10: any text whose final character is a JS `\s` whitespace — a single
final CRLF included — makes `loadFile` abort fatally with one of the two
pre-column-check messages (the line-ending or the empty-lines error), never
reaching the column-count check; and a file is accepted only if its text does
not end in whitespace, in particular not in a line feed or carriage return. -/
theorem C10_theorem (input : FileInput) (fp : String) :
    (endsInWhitespace input.text = true →
      loadFile input fp =
        Except.error ("Error: file must have line endings with CRLF (" ++ fp ++ ")") ∨
      loadFile input fp =
        Except.error ("Error: empty lines at the end of file not allowed (" ++ fp ++ ")")) ∧
    (∀ rows, loadFile input fp = Except.ok rows →
      endsInWhitespace input.text = false ∧
      input.text.data.getLast? ≠ some '\n' ∧ input.text.data.getLast? ≠ some '\r') := by
  unfold loadFile
  by_cases he : (input.eol != "CRLF") = true
  · rw [if_pos he]
    constructor
    · intro _
      exact Or.inl rfl
    · intro rows hcon
      cases hcon
  · rw [if_neg he]
    by_cases hw : endsInWhitespace input.text = true
    · rw [if_pos hw]
      constructor
      · intro _
        exact Or.inr rfl
      · intro rows hcon
        cases hcon
    · rw [if_neg hw]
      have hwf : endsInWhitespace input.text = false := by simpa using hw
      constructor
      · intro hcon
        rw [hcon] at hwf
        cases hwf
      · intro rows _
        refine ⟨hwf, ?_, ?_⟩
        · intro hlast
          have hws : endsInWhitespace input.text = true := by
            unfold endsInWhitespace
            rw [hlast]
            decide
          rw [hws] at hwf
          cases hwf
        · intro hlast
          have hws : endsInWhitespace input.text = true := by
            unfold endsInWhitespace
            rw [hlast]
            decide
          rw [hws] at hwf
          cases hwf

/-- C10, witness: a file ending in a single final CRLF is rejected before the
column-count check. -/
theorem C10_witness :
    loadFile { eol := "CRLF", text := "id\r\n", parsed := Except.ok [] } "data/test.csv" =
      Except.error ("Error: file must have line endings with CRLF (" ++
        "data/test.csv" ++ ")") ∨
    loadFile { eol := "CRLF", text := "id\r\n", parsed := Except.ok [] } "data/test.csv" =
      Except.error ("Error: empty lines at the end of file not allowed (" ++
        "data/test.csv" ++ ")") :=
  (C10_theorem { eol := "CRLF", text := "id\r\n", parsed := Except.ok [] } "data/test.csv").1 rfl

end IptvValidate
